import Mathlib

/-!
Verification of the request-nest request-ingest pipeline.

Conventions of the shallow embedding:
- Python `bytes` values are `List Nat` with every element `< 256`.
- Python `str` values are Lean `String` (or `List Char` where character-level
  reasoning is needed).
- Python `dict[str, str]` values are association lists `List (String × String)`
  whose order models Python dict insertion order.
- Timestamps (`created_at`, assigned by the database `now()`) are plain `Nat`
  values supplied explicitly to the operations that create rows.
- Randomly generated ids (`secrets.token_urlsafe`) are supplied explicitly as a
  `new_id : String` argument.
- A raised Python exception is an `Except` error value; the database session is
  threaded explicitly as a `Store`, so "no row was written" is literally
  "the returned store equals the input store".
-/

set_option maxHeartbeats 1000000

namespace RequestNest

/-! ## Base64 (model of Python `base64.b64encode` / `base64.b64decode`)

`b64encode` maps raw bytes to the RFC 4648 standard alphabet with `=` padding,
exactly as `base64.b64encode(...).decode("ascii")` does.  `b64decode` is the
strict inverse; in the repository it is only applied to strings produced by
`b64encode`, on which it agrees with Python's `base64.b64decode`.  An input it
cannot parse yields `none`, modelling the `binascii.Error` Python raises. -/

def b64chars : List Char :=
  "ABCDEFGHIJKLMNOPQRSTUVWXYZabcdefghijklmnopqrstuvwxyz0123456789+/".data

def b64char (n : Nat) : Char := b64chars.getD n 'A'

def decodeB64Char (c : Char) : Option Nat :=
  b64chars.findIdx? (fun x => x == c)

def b64encode : List Nat → List Char
  | [] => []
  | [a] =>
      [b64char (a / 4), b64char (a % 4 * 16), '=', '=']
  | [a, b] =>
      [b64char (a / 4), b64char (a % 4 * 16 + b / 16), b64char (b % 16 * 4), '=']
  | a :: b :: c :: rest =>
      b64char (a / 4) :: b64char (a % 4 * 16 + b / 16) ::
      b64char (b % 16 * 4 + c / 64) :: b64char (c % 64) :: b64encode rest

def b64decode : List Char → Option (List Nat)
  | [] => some []
  | c1 :: c2 :: c3 :: c4 :: rest =>
      match decodeB64Char c1, decodeB64Char c2, decodeB64Char c3, decodeB64Char c4 with
      | some s1, some s2, some s3, some s4 =>
          (b64decode rest).map
            (fun tail => (s1 * 4 + s2 / 16) :: (s2 % 16 * 16 + s3 / 4) ::
                         (s3 % 4 * 64 + s4) :: tail)
      | some s1, some s2, some s3, none =>
          if c4 = '=' ∧ rest = [] then
            some [s1 * 4 + s2 / 16, s2 % 16 * 16 + s3 / 4]
          else none
      | some s1, some s2, none, none =>
          if c3 = '=' ∧ c4 = '=' ∧ rest = [] then
            some [s1 * 4 + s2 / 16]
          else none
      | _, _, _, _ => none
  | _ => none

/-! ## UTF-8 decoding (model of Python `bytes.decode("utf-8")`)

Strict UTF-8: continuation bytes must be `0x80..0xBF`, overlong encodings,
surrogate code points `0xD800..0xDFFF` and code points above `0x10FFFF` are
rejected, exactly as CPython's strict `utf-8` codec does.  `none` models the
`UnicodeDecodeError`. -/

def utf8Cont (b : Nat) : Bool := decide (128 ≤ b ∧ b < 192)

def utf8Decode : List Nat → Option (List Char)
  | [] => some []
  | b1 :: rest =>
      if b1 < 128 then
        (utf8Decode rest).map (fun s => Char.ofNat b1 :: s)
      else if b1 < 192 then none
      else if b1 < 224 then
        match rest with
        | b2 :: rest2 =>
            if utf8Cont b2 then
              if (b1 - 192) * 64 + (b2 - 128) < 128 then none
              else (utf8Decode rest2).map
                (fun s => Char.ofNat ((b1 - 192) * 64 + (b2 - 128)) :: s)
            else none
        | [] => none
      else if b1 < 240 then
        match rest with
        | b2 :: b3 :: rest2 =>
            if utf8Cont b2 && utf8Cont b3 then
              if (b1 - 224) * 4096 + (b2 - 128) * 64 + (b3 - 128) < 2048 then none
              else if 55296 ≤ (b1 - 224) * 4096 + (b2 - 128) * 64 + (b3 - 128) ∧
                      (b1 - 224) * 4096 + (b2 - 128) * 64 + (b3 - 128) < 57344 then none
              else (utf8Decode rest2).map
                (fun s => Char.ofNat ((b1 - 224) * 4096 + (b2 - 128) * 64 + (b3 - 128)) :: s)
            else none
        | _ => none
      else if b1 < 248 then
        match rest with
        | b2 :: b3 :: b4 :: rest2 =>
            if utf8Cont b2 && utf8Cont b3 && utf8Cont b4 then
              if (b1 - 240) * 262144 + (b2 - 128) * 4096 + (b3 - 128) * 64 + (b4 - 128)
                   < 65536 then none
              else if (b1 - 240) * 262144 + (b2 - 128) * 4096 + (b3 - 128) * 64 + (b4 - 128)
                   > 1114111 then none
              else (utf8Decode rest2).map
                (fun s => Char.ofNat
                  ((b1 - 240) * 262144 + (b2 - 128) * 4096 + (b3 - 128) * 64 + (b4 - 128)) :: s)
            else none
        | _ => none
      else none

/-! ## Python `int(str)` (model of the call in `get_content_length`)

`int(content_length)` accepts optional surrounding whitespace, an optional
sign, and a nonempty digit run in which single underscores may separate
digits; anything else raises `ValueError` (modelled as `none`).  Unicode
digits and exotic whitespace are not modelled; the claims only depend on the
behaviour on ASCII header values. -/

def isPySpace (c : Char) : Bool :=
  decide (c = ' ' ∨ c = '\t' ∨ c = '\n' ∨ c = '\r' ∨ c = '\x0b' ∨ c = '\x0c')

def pyDigit (c : Char) : Option Nat :=
  if decide ('0' ≤ c ∧ c ≤ '9') then some (c.toNat - 48) else none

def pyDigitsAux : Nat → List Char → Option Nat
  | acc, [] => some acc
  | acc, '_' :: c :: rest =>
      match pyDigit c with
      | some d => pyDigitsAux (acc * 10 + d) rest
      | none => none
  | acc, c :: rest =>
      match pyDigit c with
      | some d => pyDigitsAux (acc * 10 + d) rest
      | none => none

def pyDigits : List Char → Option Nat
  | [] => none
  | c :: rest =>
      match pyDigit c with
      | some d => pyDigitsAux d rest
      | none => none

def pyStrip (s : List Char) : List Char :=
  ((s.dropWhile isPySpace).reverse.dropWhile isPySpace).reverse

def pythonInt (s : List Char) : Option Int :=
  match pyStrip s with
  | '+' :: rest => (pyDigits rest).map Int.ofNat
  | '-' :: rest => (pyDigits rest).map (fun n => -(n : Int))
  | rest => (pyDigits rest).map Int.ofNat

/-! ## Domain models (`domain/bin.py`, `domain/event.py`) -/

structure Bin where
  id : String
  name : Option String
  created_at : Nat
deriving DecidableEq, Repr

/-- `Bin.ingest_url`: base_url with trailing slashes stripped, then `/b/` + id. -/
def Bin.ingest_url (b : Bin) (base_url : String) : String :=
  String.mk ((base_url.data.reverse.dropWhile (fun c => c == '/')).reverse
    ++ "/b/".data ++ b.id.data)

structure Event where
  id : String
  bin_id : String
  method : String
  path : String
  query_params : List (String × String)
  headers : List (String × String)
  body_b64 : List Char
  remote_ip : Option String
  created_at : Nat
deriving DecidableEq, Repr

/-- `Event.size_bytes`: 0 for an empty stored body, otherwise the length of
the base64-decoded body.  `none` models the `binascii.Error` that
`base64.b64decode` raises on an undecodable stored string (which never occurs
for events written by the pipeline). -/
def Event.size_bytes (e : Event) : Option Nat :=
  if e.body_b64 = [] then some 0
  else (b64decode e.body_b64).map List.length

/-! ## DTOs (`dtos/v1/event_dto.py`) -/

structure EventSummary where
  id : String
  method : String
  path : String
  size_bytes : Option Nat
  created_at : Nat
deriving DecidableEq, Repr

structure EventDetail where
  id : String
  bin_id : String
  method : String
  path : String
  query_params : List (String × String)
  headers : List (String × String)
  body : List Char
  remote_ip : Option String
  size_bytes : Nat
  created_at : Nat
deriving DecidableEq, Repr

/-- `EventDetail.from_event`: decode the stored base64 body; if the resulting
bytes decode as UTF-8 the decoded text is the display body, otherwise
(`UnicodeDecodeError`) the original base64 text is returned.  `size_bytes` is
always the decoded byte count.  An undecodable base64 string propagates the
uncaught `binascii.Error`, modelled as `none`. -/
def EventDetail.from_event (e : Event) : Option EventDetail :=
  if e.body_b64 = [] then
    some { id := e.id, bin_id := e.bin_id, method := e.method, path := e.path,
           query_params := e.query_params, headers := e.headers, body := [],
           remote_ip := e.remote_ip, size_bytes := 0, created_at := e.created_at }
  else
    match b64decode e.body_b64 with
    | none => none
    | some bytes =>
        some { id := e.id, bin_id := e.bin_id, method := e.method, path := e.path,
               query_params := e.query_params, headers := e.headers,
               body := match utf8Decode bytes with
                       | some s => s
                       | none => e.body_b64,
               remote_ip := e.remote_ip, size_bytes := bytes.length,
               created_at := e.created_at }

/-! ## Repositories (`repositories/bin_repository.py`, `event_repository.py`)

The two SQL tables are lists of rows; `SELECT ... WHERE id = x` + `first()` is
`filter` + `head?`.  The listing query `SELECT ... WHERE bin_id = x ORDER BY
created_at DESC LIMIT n` orders only on `created_at`; `sortByCreatedDesc`
below is one admissible realisation of that query (a deterministic stable
sort), while `listByBinContract` further down captures exactly what the query
itself guarantees, leaving the order of ties unconstrained. -/

def BinRepository.get_by_id (bins : List Bin) (bin_id : String) : Option Bin :=
  (bins.filter (fun b => decide (b.id = bin_id))).head?

/-- Stable insertion into a list kept sorted descending on `key`: one
admissible realisation of the database's `ORDER BY created_at DESC`. -/
def insertDescBy {α : Type} (key : α → Nat) (e : α) : List α → List α
  | [] => [e]
  | x :: xs => if key x < key e then e :: x :: xs else x :: insertDescBy key e xs

def sortDescBy {α : Type} (key : α → Nat) : List α → List α
  | [] => []
  | x :: xs => insertDescBy key x (sortDescBy key xs)

/-- `BinRepository.list_all`: all bins ordered by `created_at DESC` (no
secondary key). -/
def BinRepository.list_all (bins : List Bin) : List Bin :=
  sortDescBy Bin.created_at bins

def EventRepository.list_by_bin (events : List Event) (bin_id : String) (limit : Nat) :
    List Event :=
  (sortDescBy Event.created_at (events.filter (fun e => decide (e.bin_id = bin_id)))).take limit

def EventRepository.get_by_id (events : List Event) (event_id : String) : Option Event :=
  (events.filter (fun e => decide (e.id = event_id))).head?

/-- `EventRepository.create`: build the row with a fresh id and server-assigned
`created_at`, add it to the table (`session.add` + `flush`). -/
def EventRepository.create (events : List Event) (bin_id method path : String)
    (query_params headers : List (String × String)) (body_b64 : List Char)
    (remote_ip : Option String) (new_id : String) (now : Nat) : List Event × Event :=
  let event : Event :=
    { id := new_id, bin_id := bin_id, method := method, path := path,
      query_params := query_params, headers := headers, body_b64 := body_b64,
      remote_ip := remote_ip, created_at := now }
  (events ++ [event], event)

/-- Contract of the SQL query behind `EventRepository.list_by_bin`: the result
is the first `limit` rows of some reordering of the bin's events that is
sorted by `created_at` descending.  Ties in `created_at` are NOT further
constrained, because the query has no secondary sort key. -/
def listByBinContract (events : List Event) (bin_id : String) (limit : Nat)
    (r : List Event) : Prop :=
  ∃ L, List.Perm (events.filter (fun e => decide (e.bin_id = bin_id))) L ∧
    L.Pairwise (fun a b => b.created_at ≤ a.created_at) ∧ r = L.take limit

/-- Contract of the SQL query behind `BinRepository.list_all`. -/
def listAllBinsContract (bins : List Bin) (r : List Bin) : Prop :=
  ∃ L, List.Perm bins L ∧
    L.Pairwise (fun a b => b.created_at ≤ a.created_at) ∧ r = L

/-! ## Service layer (`services/event_service.py`) -/

def MAX_LIMIT : Nat := 100

def DEFAULT_LIMIT : Nat := 50

structure PayloadTooLargeError where
  max_size : Nat
  actual_size : Nat
deriving DecidableEq, Repr

/-- The database session's visible state: the two tables. -/
structure Store where
  bins : List Bin
  events : List Event
deriving DecidableEq, Repr

def EventService.to_summary (e : Event) : EventSummary :=
  { id := e.id, method := e.method, path := e.path,
    size_bytes := e.size_bytes, created_at := e.created_at }

/-- `EventService.ingest_request`: size check, bin lookup, base64-encode,
insert + commit.  The returned store is the session state after the call:
unchanged on the `PayloadTooLargeError` raise and on the missing-bin `None`
return (no repository write has happened on either path). -/
def EventService.ingest_request (store : Store) (bin_id method path : String)
    (query_params headers : List (String × String)) (body_bytes : List Nat)
    (remote_ip : Option String) (max_body_size : Nat) (new_id : String) (now : Nat) :
    Store × Except PayloadTooLargeError (Option Event) :=
  let body_size := body_bytes.length
  if body_size > max_body_size then
    (store, .error { max_size := max_body_size, actual_size := body_size })
  else
    match BinRepository.get_by_id store.bins bin_id with
    | none => (store, .ok none)
    | some _ =>
        let body_b64 := b64encode body_bytes
        let created := EventRepository.create store.events bin_id method path
          query_params headers body_b64 remote_ip new_id now
        ({ store with events := created.1 }, .ok (some created.2))

/-- `EventService.list_events_by_bin`: `None` when the bin does not exist,
otherwise up to `min limit MAX_LIMIT` summaries. -/
def EventService.list_events_by_bin (store : Store) (bin_id : String) (limit : Nat) :
    Option (List EventSummary) :=
  match BinRepository.get_by_id store.bins bin_id with
  | none => none
  | some _ =>
      some ((EventRepository.list_by_bin store.events bin_id
        (min limit MAX_LIMIT)).map EventService.to_summary)

/-- `EventService.list_events_by_bin` with the `limit` parameter left at its
Python default value `DEFAULT_LIMIT`. -/
def EventService.list_events_by_bin_default (store : Store) (bin_id : String) :
    Option (List EventSummary) :=
  EventService.list_events_by_bin store bin_id DEFAULT_LIMIT

/-- `EventService.get_event`: `some none` is the service's `None` ("event not
found"); the outer `none` is an uncaught `binascii.Error` from
`EventDetail.from_event` on an undecodable stored body. -/
def EventService.get_event (store : Store) (event_id : String) :
    Option (Option EventDetail) :=
  match EventRepository.get_by_id store.events event_id with
  | none => some none
  | some e => (EventDetail.from_event e).map some

/-! ## Header / request plumbing (`controllers/v1/ingest_controller.py`)

`RawRequest` models the FastAPI `Request` seen by the controller:
`raw_headers` are the wire headers; the ASGI/Starlette layer lower-cases
header names, and `dict(request.headers)` keeps, for each name, the value of
its first occurrence (`Headers.__getitem__` returns the first match).
`query_params` models `dict(request.query_params)` directly, since no claim
depends on query multiplicity. -/

structure RawRequest where
  method : String
  query_params : List (String × String)
  raw_headers : List (String × String)
  body : List Nat
  client_host : Option String
deriving DecidableEq, Repr

def strLower (s : String) : String := String.mk (s.data.map Char.toLower)

def lowerKeys (raw : List (String × String)) : List (String × String) :=
  raw.map (fun p => (strLower p.1, p.2))

/-- `dict(m)` over a Starlette header mapping: one entry per distinct key,
keyed in order of first occurrence, first occurrence's value winning
(`Headers.__getitem__` returns the first match). -/
def dictOfPairs : List (String × String) → List (String × String)
  | [] => []
  | p :: rest => p :: (dictOfPairs rest).filter (fun q => decide (q.1 ≠ p.1))

def dictHeaders (raw : List (String × String)) : List (String × String) :=
  dictOfPairs (lowerKeys raw)

/-- `request.headers.get(key)` for a lower-case `key`: first matching header,
case-insensitively. -/
def headersGet (raw : List (String × String)) (key : String) : Option String :=
  (((lowerKeys raw).filter (fun p => decide (p.1 = key))).head?).map (fun p => p.2)

def lookupKey : List (String × String) → String → Option String
  | [], _ => none
  | p :: rest, k => if p.1 = k then some p.2 else lookupKey rest k

/-- `get_content_length`: the `content-length` header parsed with `int(...)`;
absent header, empty value (falsy) or a `ValueError` all give `None`. -/
def get_content_length (raw : List (String × String)) : Option Int :=
  match headersGet raw "content-length" with
  | none => none
  | some v => if v = "" then none else pythonInt v.data

/-- `extract_client_ip`: first entry of a nonempty `x-forwarded-for`,
stripped; otherwise the peer address. -/
def extract_client_ip (req : RawRequest) : Option String :=
  match headersGet req.raw_headers "x-forwarded-for" with
  | some fwd =>
      if fwd = "" then req.client_host
      else some (((fwd.splitOn ",").headD "").trim)
  | none => req.client_host

/-! ## Error envelopes (`errors.py`) -/

structure HTTPError where
  status : Nat
  code : String
  message : String
deriving DecidableEq, Repr

/-- ASCII single quote, code 39. -/
def squote : String := String.singleton (Char.ofNat 39)

def not_found_error (resource : String) (resource_id : String) : HTTPError :=
  { status := 404, code := "NOT_FOUND",
    message := resource ++ " " ++ squote ++ resource_id ++ squote ++ " not found" }

def payload_too_large_error (max_size : Int) (actual_size : Int) : HTTPError :=
  { status := 413, code := "PAYLOAD_TOO_LARGE",
    message := "Request body size (" ++ toString actual_size ++
      " bytes) exceeds maximum allowed (" ++ toString max_size ++ " bytes)" }

structure IngestResponse where
  ok : Bool
  event_id : String
deriving DecidableEq, Repr

/-- Body of `IngestController.ingest` after the early Content-Length check:
normalize, read the body, call the service, translate its outcomes. -/
def IngestController.ingestAfterSizeCheck (max_body_size : Nat) (store : Store)
    (bin_id path : String) (req : RawRequest) (new_id : String) (now : Nat) :
    Store × Except HTTPError IngestResponse :=
  let headers := dictHeaders req.raw_headers
  let remote_ip := extract_client_ip req
  match EventService.ingest_request store bin_id req.method path req.query_params
      headers req.body remote_ip max_body_size new_id now with
  | (store2, .error e) =>
      (store2, .error (payload_too_large_error (e.max_size : Int) (e.actual_size : Int)))
  | (store2, .ok none) => (store2, .error (not_found_error "Bin" bin_id))
  | (store2, .ok (some event)) => (store2, .ok { ok := true, event_id := event.id })

/-- `IngestController.ingest`: early rejection on a declared Content-Length
above the limit, before the body is read; then the post-read pipeline. -/
def IngestController.ingest (max_body_size : Nat) (store : Store)
    (bin_id path : String) (req : RawRequest) (new_id : String) (now : Nat) :
    Store × Except HTTPError IngestResponse :=
  match get_content_length req.raw_headers with
  | some cl =>
      if cl > (max_body_size : Int) then
        (store, .error (payload_too_large_error (max_body_size : Int) cl))
      else IngestController.ingestAfterSizeCheck max_body_size store bin_id path req new_id now
  | none => IngestController.ingestAfterSizeCheck max_body_size store bin_id path req new_id now

/-! ## Fixtures used by closed (witness / counterexample) theorems -/

def binA : Bin := { id := "b_1", name := none, created_at := 0 }

def storeA : Store := { bins := [binA], events := [] }

def eventTieA : Event :=
  { id := "e_1", bin_id := "b_1", method := "GET", path := "", query_params := [],
    headers := [], body_b64 := [], remote_ip := none, created_at := 5 }

def eventTieB : Event :=
  { id := "e_2", bin_id := "b_1", method := "GET", path := "", query_params := [],
    headers := [], body_b64 := [], remote_ip := none, created_at := 5 }

def eventW : Event :=
  { id := "e_1", bin_id := "b_1", method := "POST", path := "hook", query_params := [],
    headers := [], body_b64 := b64encode [0, 255, 7], remote_ip := none, created_at := 3 }

def storeW : Store := { bins := [binA], events := [eventW] }

def reqCL : RawRequest :=
  { method := "POST", query_params := [], raw_headers := [("Content-Length", "999")],
    body := [], client_host := none }

def eventHi : Event :=
  { id := "e_1", bin_id := "b_1", method := "POST", path := "", query_params := [],
    headers := [], body_b64 := b64encode [104, 105], remote_ip := none, created_at := 3 }

def storeHi : Store := { bins := [binA], events := [eventHi] }

def reqXT : RawRequest :=
  { method := "POST", query_params := [], raw_headers := [("X-Test", "v")],
    body := [], client_host := none }

def eventXT : Event :=
  { id := "e_1", bin_id := "b_1", method := "POST", path := "", query_params := [],
    headers := [("x-test", "v")], body_b64 := [], remote_ip := none, created_at := 3 }

def storeXT : Store := { bins := [binA], events := [eventXT] }

def reqBadCL : RawRequest :=
  { method := "POST", query_params := [], raw_headers := [("Content-Length", "abc")],
    body := [1, 2, 3], client_host := none }

end RequestNest

namespace RequestNest

/-! ## Base64 lemmas -/

theorem decodeB64Char_b64char {s : Nat} (h : s < 64) :
    decodeB64Char (b64char s) = some s := by
  have hall : ∀ t : Fin 64, decodeB64Char (b64char t.val) = some t.val := by decide
  exact hall ⟨s, h⟩

theorem decodeB64Char_pad : decodeB64Char '=' = none := by decide

theorem b64decode_b64encode :
    ∀ (b : List Nat), (∀ x ∈ b, x < 256) → b64decode (b64encode b) = some b := by
  intro b
  induction b using b64encode.induct with
  | case1 =>
      intro _
      simp [b64encode, b64decode]
  | case2 a =>
      intro h
      have ha : a < 256 := h a (by simp)
      have h1 : decodeB64Char (b64char (a / 4)) = some (a / 4) :=
        decodeB64Char_b64char (by omega)
      have h2 : decodeB64Char (b64char (a % 4 * 16)) = some (a % 4 * 16) :=
        decodeB64Char_b64char (by omega)
      simp [b64encode, b64decode, h1, h2, decodeB64Char_pad]
      omega
  | case3 a b =>
      intro h
      have ha : a < 256 := h a (by simp)
      have hb : b < 256 := h b (by simp)
      have h1 : decodeB64Char (b64char (a / 4)) = some (a / 4) :=
        decodeB64Char_b64char (by omega)
      have h2 : decodeB64Char (b64char (a % 4 * 16 + b / 16)) = some (a % 4 * 16 + b / 16) :=
        decodeB64Char_b64char (by omega)
      have h3 : decodeB64Char (b64char (b % 16 * 4)) = some (b % 16 * 4) :=
        decodeB64Char_b64char (by omega)
      simp [b64encode, b64decode, h1, h2, h3, decodeB64Char_pad]
      constructor
      · omega
      · omega
  | case4 a b c rest ih =>
      intro h
      have ha : a < 256 := h a (by simp)
      have hb : b < 256 := h b (by simp)
      have hc : c < 256 := h c (by simp)
      have hrest : ∀ x ∈ rest, x < 256 := by
        intro x hx
        exact h x (by simp [hx])
      have h1 : decodeB64Char (b64char (a / 4)) = some (a / 4) :=
        decodeB64Char_b64char (by omega)
      have h2 : decodeB64Char (b64char (a % 4 * 16 + b / 16)) = some (a % 4 * 16 + b / 16) :=
        decodeB64Char_b64char (by omega)
      have h3 : decodeB64Char (b64char (b % 16 * 4 + c / 64)) = some (b % 16 * 4 + c / 64) :=
        decodeB64Char_b64char (by omega)
      have h4 : decodeB64Char (b64char (c % 64)) = some (c % 64) :=
        decodeB64Char_b64char (by omega)
      simp [b64encode, b64decode, h1, h2, h3, h4, ih hrest]
      refine ⟨?_, ?_, ?_⟩ <;> omega

theorem b64encode_eq_nil_iff (b : List Nat) : b64encode b = [] ↔ b = [] := by
  constructor
  · intro h
    match b with
    | [] => rfl
    | [a] => simp [b64encode] at h
    | [a, x] => simp [b64encode] at h
    | a :: x :: c :: rest => simp [b64encode] at h
  · intro h
    subst h
    rfl

/-! ## Sorting lemmas -/

theorem insertDescBy_perm {α : Type} (key : α → Nat) (e : α) (l : List α) :
    List.Perm (e :: l) (insertDescBy key e l) := by
  induction l with
  | nil => simp [insertDescBy]
  | cons x xs ih =>
      by_cases h : key x < key e
      · simp [insertDescBy, h]
      · simp only [insertDescBy, if_neg h]
        exact (List.Perm.swap x e xs).trans (List.Perm.cons x ih)

theorem sortDescBy_perm {α : Type} (key : α → Nat) (l : List α) :
    List.Perm l (sortDescBy key l) := by
  induction l with
  | nil => simp [sortDescBy]
  | cons x xs ih =>
      exact (List.Perm.cons x ih).trans (insertDescBy_perm key x (sortDescBy key xs))

theorem insertDescBy_pairwise {α : Type} (key : α → Nat) (e : α) (l : List α)
    (hl : l.Pairwise (fun a b => key b ≤ key a)) :
    (insertDescBy key e l).Pairwise (fun a b => key b ≤ key a) := by
  induction l with
  | nil => simp [insertDescBy]
  | cons x xs ih =>
      rcases List.pairwise_cons.mp hl with ⟨hx, hxs⟩
      by_cases h : key x < key e
      · simp only [insertDescBy, if_pos h]
        refine List.pairwise_cons.mpr ⟨?_, hl⟩
        intro y hy
        rcases List.mem_cons.mp hy with rfl | hy2
        · omega
        · have := hx y hy2
          omega
      · simp only [insertDescBy, if_neg h]
        refine List.pairwise_cons.mpr ⟨?_, ih hxs⟩
        intro y hy
        have hmem : y ∈ e :: xs := ((insertDescBy_perm key e xs).symm).mem_iff.mp hy
        rcases List.mem_cons.mp hmem with rfl | hy2
        · omega
        · exact hx y hy2

theorem sortDescBy_pairwise {α : Type} (key : α → Nat) (l : List α) :
    (sortDescBy key l).Pairwise (fun a b => key b ≤ key a) := by
  induction l with
  | nil => simp [sortDescBy]
  | cons x xs ih => exact insertDescBy_pairwise key x (sortDescBy key xs) ih

theorem sortDescBy_length {α : Type} (key : α → Nat) (l : List α) :
    (sortDescBy key l).length = l.length :=
  ((sortDescBy_perm key l).length_eq).symm

/-! ## Header-dictionary lemmas -/

theorem mem_dictOfPairs (l : List (String × String)) (q : String × String)
    (h : q ∈ dictOfPairs l) : q ∈ l := by
  induction l with
  | nil => simp [dictOfPairs] at h
  | cons p rest ih =>
      simp only [dictOfPairs] at h
      rcases List.mem_cons.mp h with rfl | h2
      · exact List.mem_cons_self _ _
      · exact List.mem_cons_of_mem _ (ih (List.mem_of_mem_filter h2))

theorem dictOfPairs_keys_nodup (l : List (String × String)) :
    ((dictOfPairs l).map Prod.fst).Nodup := by
  induction l with
  | nil => simp [dictOfPairs]
  | cons p rest ih =>
      simp only [dictOfPairs, List.map_cons]
      refine List.nodup_cons.mpr ⟨?_, ?_⟩
      · intro hmem
        rcases List.mem_map.mp hmem with ⟨q, hq, hkey⟩
        have := List.of_mem_filter hq
        simp only [decide_eq_true_eq] at this
        exact this hkey
      · exact (List.Sublist.map Prod.fst (List.filter_sublist _)).nodup ih

theorem lookupKey_filter_ne (l : List (String × String)) (k k0 : String) (hne : k ≠ k0) :
    lookupKey (l.filter (fun q => decide (q.1 ≠ k0))) k = lookupKey l k := by
  induction l with
  | nil => simp [lookupKey]
  | cons q rest ih =>
      by_cases hq : q.1 = k0
      · have h1 : List.filter (fun q : String × String => decide (q.1 ≠ k0)) (q :: rest)
            = List.filter (fun q : String × String => decide (q.1 ≠ k0)) rest := by
          simp [List.filter_cons, hq]
        have h2 : lookupKey (q :: rest) k = lookupKey rest k := by
          rw [lookupKey, if_neg]
          intro hqk
          exact hne (hqk ▸ hq)
        rw [h1, ih, h2]
      · have h1 : List.filter (fun q : String × String => decide (q.1 ≠ k0)) (q :: rest)
            = q :: List.filter (fun q : String × String => decide (q.1 ≠ k0)) rest := by
          simp [List.filter_cons, hq]
        rw [h1, lookupKey, lookupKey]
        by_cases hqk : q.1 = k
        · rw [if_pos hqk, if_pos hqk]
        · rw [if_neg hqk, if_neg hqk, ih]

theorem lookupKey_dictOfPairs (l : List (String × String)) (k : String) :
    lookupKey (dictOfPairs l) k = lookupKey l k := by
  induction l with
  | nil => rfl
  | cons p rest ih =>
      simp only [dictOfPairs]
      rw [lookupKey, lookupKey]
      by_cases hk : p.1 = k
      · rw [if_pos hk, if_pos hk]
      · rw [if_neg hk, if_neg hk,
          lookupKey_filter_ne (dictOfPairs rest) k p.1 (fun h => hk h.symm), ih]

/-! ## Inversion of a successful ingest -/

theorem ingest_request_ok_some_inv (store : Store) (bin_id method path : String)
    (qp hs : List (String × String)) (b : List Nat) (rip : Option String)
    (max now : Nat) (new_id : String) (store2 : Store) (e : Event)
    (hok : EventService.ingest_request store bin_id method path qp hs b rip max new_id now
      = (store2, .ok (some e))) :
    b.length ≤ max ∧
    e = { id := new_id, bin_id := bin_id, method := method, path := path,
          query_params := qp, headers := hs, body_b64 := b64encode b,
          remote_ip := rip, created_at := now } ∧
    store2 = { store with events := store.events ++ [e] } := by
  simp only [EventService.ingest_request, EventRepository.create] at hok
  by_cases hlen : b.length > max
  · rw [if_pos hlen] at hok
    simp at hok
  · rw [if_neg hlen] at hok
    cases hbin : BinRepository.get_by_id store.bins bin_id with
    | none =>
        rw [hbin] at hok
        simp at hok
    | some bin =>
        rw [hbin] at hok
        simp only [Prod.mk.injEq, Except.ok.injEq, Option.some.injEq] at hok
        obtain ⟨hst, hev⟩ := hok
        refine ⟨by omega, hev.symm, ?_⟩
        rw [← hst, hev]

/-! ## Claim theorems -/

/-- C1: for every byte sequence `b` (including empty and arbitrary binary
content), decoding the stored base64 body recovers exactly `b`, and the
persisted Event's `size_bytes` equals `len(b)` (0 when `b` is empty),
computed from the decoded bytes rather than the encoded text. -/
theorem c1_body_roundtrip_and_size (b : List Nat) (hb : ∀ x ∈ b, x < 256)
    (store : Store) (bin_id method path new_id : String)
    (qp hs : List (String × String)) (rip : Option String) (max now : Nat)
    (store2 : Store) (e : Event)
    (hok : EventService.ingest_request store bin_id method path qp hs b rip max new_id now
      = (store2, .ok (some e))) :
    b64decode (b64encode b) = some b ∧
    e ∈ store2.events ∧
    e.body_b64 = b64encode b ∧
    Event.size_bytes e = some b.length := by
  obtain ⟨-, hev, hst⟩ :=
    ingest_request_ok_some_inv store bin_id method path qp hs b rip max now new_id store2 e hok
  have hrt := b64decode_b64encode b hb
  refine ⟨hrt, ?_, ?_, ?_⟩
  · rw [hst]
    simp
  · rw [hev]
  · rw [Event.size_bytes, hev]
    by_cases hnil : b = []
    · subst hnil
      simp [b64encode]
    · rw [if_neg (fun h => hnil ((b64encode_eq_nil_iff b).mp h))]
      rw [hrt]
      rfl

/-- C1 witness: a concrete binary body (a null byte, an invalid-UTF-8 byte)
round-trips through the stored encoding. -/
theorem c1_witness : b64decode (b64encode [0, 255, 7]) = some [0, 255, 7] :=
  (c1_body_roundtrip_and_size [0, 255, 7] (by decide) storeA "b_1" "POST" "hook" "e_1"
    [] [] none 10 3 storeW eventW rfl).1

/-- C2: `ingest_request` raises `PayloadTooLargeError`, carrying the
configured maximum and the measured body size, exactly when the body is
strictly larger than `max_body_size` (leaving the store unchanged in that
case), and a body of exactly `max_body_size` sent to an existing bin is
stored. -/
theorem c2_payload_limit_boundary (store : Store) (bin_id method path new_id : String)
    (qp hs : List (String × String)) (b : List Nat) (rip : Option String)
    (max now : Nat) :
    ((∃ err, (EventService.ingest_request store bin_id method path qp hs b rip
        max new_id now).2 = .error err) ↔ b.length > max) ∧
    (b.length > max →
      EventService.ingest_request store bin_id method path qp hs b rip max new_id now
        = (store, .error { max_size := max, actual_size := b.length })) ∧
    (b.length = max → ∀ bin, BinRepository.get_by_id store.bins bin_id = some bin →
      ∃ e, EventService.ingest_request store bin_id method path qp hs b rip max new_id now
        = ({ store with events := store.events ++ [e] }, .ok (some e))) := by
  refine ⟨⟨?_, ?_⟩, ?_, ?_⟩
  · rintro ⟨err, herr⟩
    by_contra hle
    rw [EventService.ingest_request] at herr
    simp only [if_neg hle] at herr
    cases hbin : BinRepository.get_by_id store.bins bin_id with
    | none => rw [hbin] at herr; simp at herr
    | some bin => rw [hbin] at herr; simp at herr
  · intro h
    exact ⟨{ max_size := max, actual_size := b.length }, by
      rw [EventService.ingest_request]
      simp only [if_pos h]⟩
  · intro h
    rw [EventService.ingest_request]
    simp only [if_pos h]
  · intro heq bin hbin
    have hle : ¬ (b.length > max) := by omega
    refine ⟨({ id := new_id, bin_id := bin_id, method := method, path := path,
               query_params := qp, headers := hs, body_b64 := b64encode b,
               remote_ip := rip, created_at := now } : Event), ?_⟩
    rw [EventService.ingest_request]
    simp only [if_neg hle, hbin, EventRepository.create]

/-- C2 witness: an 11-byte body against a 10-byte limit is rejected with the
limit and the measured size; a 10-byte body to an existing bin is stored. -/
theorem c2_witness :
    EventService.ingest_request storeA "b_1" "POST" "" [] []
        [1, 2, 3, 4, 5, 6, 7, 8, 9, 10, 11] none 10 "e_1" 3
      = (storeA, .error { max_size := 10, actual_size := 11 }) ∧
    ∃ e, EventService.ingest_request storeA "b_1" "POST" "" [] []
        [1, 2, 3, 4, 5, 6, 7, 8, 9, 10] none 10 "e_1" 3
      = ({ storeA with events := storeA.events ++ [e] }, .ok (some e)) :=
  ⟨(c2_payload_limit_boundary storeA "b_1" "POST" "" "e_1" [] []
      [1, 2, 3, 4, 5, 6, 7, 8, 9, 10, 11] none 10 3).2.1 (by decide),
   (c2_payload_limit_boundary storeA "b_1" "POST" "" "e_1" [] []
      [1, 2, 3, 4, 5, 6, 7, 8, 9, 10] none 10 3).2.2 (by decide) binA (by decide)⟩

/-- C3: an ingest to a missing bin (with an in-limit body) returns `None`
without touching the store, the controller reports it as a 404 not-found,
and a successful ingest inserts exactly one row. -/
theorem c3_missing_bin_no_side_effects (store : Store)
    (bin_id method path new_id : String) (qp hs : List (String × String))
    (b : List Nat) (rip : Option String) (max now : Nat) :
    (BinRepository.get_by_id store.bins bin_id = none → b.length ≤ max →
      EventService.ingest_request store bin_id method path qp hs b rip max new_id now
        = (store, .ok none)) ∧
    (∀ req : RawRequest, get_content_length req.raw_headers = none →
      req.body.length ≤ max →
      BinRepository.get_by_id store.bins bin_id = none →
      IngestController.ingest max store bin_id path req new_id now
        = (store, .error (not_found_error "Bin" bin_id))) ∧
    (∀ bin, BinRepository.get_by_id store.bins bin_id = some bin → b.length ≤ max →
      ∃ e, EventService.ingest_request store bin_id method path qp hs b rip max new_id now
        = ({ store with events := store.events ++ [e] }, .ok (some e))) := by
  refine ⟨?_, ?_, ?_⟩
  · intro hbin hlen
    rw [EventService.ingest_request]
    simp only [if_neg (by omega : ¬ (b.length > max)), hbin]
  · intro req hcl hlen hbin
    rw [IngestController.ingest, hcl, IngestController.ingestAfterSizeCheck]
    have hsvc : EventService.ingest_request store bin_id req.method path req.query_params
        (dictHeaders req.raw_headers) req.body (extract_client_ip req) max new_id now
        = (store, .ok none) := by
      rw [EventService.ingest_request]
      simp only [if_neg (by omega : ¬ (req.body.length > max)), hbin]
    rw [hsvc]
  · intro bin hbin hlen
    refine ⟨({ id := new_id, bin_id := bin_id, method := method, path := path,
               query_params := qp, headers := hs, body_b64 := b64encode b,
               remote_ip := rip, created_at := now } : Event), ?_⟩
    rw [EventService.ingest_request]
    simp only [if_neg (by omega : ¬ (b.length > max)), hbin, EventRepository.create]

/-- C3 witness: ingest to the absent bin id leaves the concrete store
unchanged at both the service and the controller boundary. -/
theorem c3_witness :
    EventService.ingest_request storeA "b_missing" "POST" "" [] [] [1, 2] none 10 "e_1" 3
      = (storeA, .ok none) ∧
    IngestController.ingest 10 storeA "b_missing" ""
        { method := "POST", query_params := [], raw_headers := [], body := [1, 2],
          client_host := none } "e_1" 3
      = (storeA, .error (not_found_error "Bin" "b_missing")) :=
  ⟨(c3_missing_bin_no_side_effects storeA "b_missing" "POST" "" "e_1" [] [] [1, 2]
      none 10 3).1 (by decide) (by decide),
   (c3_missing_bin_no_side_effects storeA "b_missing" "POST" "" "e_1" [] [] [1, 2]
      none 10 3).2.1
    { method := "POST", query_params := [], raw_headers := [], body := [1, 2],
      client_host := none } (by decide) (by decide) (by decide)⟩

/-- C4: `list_events_by_bin` answers `none` exactly when the bin id is absent
from the Bin table, and answers the empty (non-null) list for an existing bin
with zero events, so the two cases are distinguishable at the service
interface. -/
theorem c4_missing_bin_vs_empty_list (store : Store) (bin_id : String) (limit : Nat) :
    (EventService.list_events_by_bin store bin_id limit = none ↔
      BinRepository.get_by_id store.bins bin_id = none) ∧
    (∀ bin, BinRepository.get_by_id store.bins bin_id = some bin →
      store.events.filter (fun e => decide (e.bin_id = bin_id)) = [] →
      EventService.list_events_by_bin store bin_id limit = some []) := by
  refine ⟨⟨?_, ?_⟩, ?_⟩
  · intro h
    cases hbin : BinRepository.get_by_id store.bins bin_id with
    | none => rfl
    | some bin =>
        simp only [EventService.list_events_by_bin, hbin] at h
        exact Option.noConfusion h
  · intro h
    simp only [EventService.list_events_by_bin, h]
  · intro bin hbin hempty
    simp only [EventService.list_events_by_bin, hbin, EventRepository.list_by_bin, hempty]
    simp [sortDescBy]

/-- C4 witness: the concrete store distinguishes an existing empty bin
(empty list) from a missing bin (`none`). -/
theorem c4_witness :
    EventService.list_events_by_bin storeA "b_1" 50 = some [] ∧
    EventService.list_events_by_bin storeA "b_missing" 50 = none :=
  ⟨(c4_missing_bin_vs_empty_list storeA "b_1" 50).2 binA (by decide) (by decide),
   (c4_missing_bin_vs_empty_list storeA "b_missing" 50).1.mpr (by decide)⟩

/-- C5: the service clamps the limit to the hard ceiling `MAX_LIMIT = 100`
(so at most `min limit 100` events are returned), and an omitted limit means
`DEFAULT_LIMIT = 50`. -/
theorem c5_limit_clamp_and_default (store : Store) (bin_id : String) (limit : Nat) :
    MAX_LIMIT = 100 ∧ DEFAULT_LIMIT = 50 ∧
    EventService.list_events_by_bin_default store bin_id
      = EventService.list_events_by_bin store bin_id 50 ∧
    (∀ l, EventService.list_events_by_bin store bin_id limit = some l →
      l.length ≤ min limit 100) := by
  refine ⟨rfl, rfl, rfl, ?_⟩
  intro l hl
  cases hbin : BinRepository.get_by_id store.bins bin_id with
  | none =>
      simp only [EventService.list_events_by_bin, hbin] at hl
      exact Option.noConfusion hl
  | some bin =>
      simp only [EventService.list_events_by_bin, hbin, Option.some.injEq] at hl
      rw [← hl, List.length_map, EventRepository.list_by_bin, List.length_take]
      have hm : MAX_LIMIT = 100 := rfl
      omega

/-- C5 witness: with a caller-supplied limit of 7 on the concrete store the
result holds at most `min 7 100` events. -/
theorem c5_witness : (List.length ([] : List EventSummary)) ≤ min 7 100 :=
  (c5_limit_clamp_and_default storeA "b_1" 7).2.2.2 [] (by decide)

/-- C6 counterexample: the listing query orders only on `created_at`; for two
events with identical `created_at` both relative orders satisfy everything
the executed query specifies, so the returned order is not determined (no
secondary ordering on id exists in the code). -/
theorem c6_counterexample :
    listByBinContract [eventTieA, eventTieB] "b_1" 50 [eventTieA, eventTieB] ∧
    listByBinContract [eventTieA, eventTieB] "b_1" 50 [eventTieB, eventTieA] ∧
    ([eventTieA, eventTieB] : List Event) ≠ [eventTieB, eventTieA] := by
  refine ⟨⟨[eventTieA, eventTieB], ?_, ?_, ?_⟩,
          ⟨[eventTieB, eventTieA], ?_, ?_, ?_⟩, ?_⟩
  · decide
  · decide
  · decide
  · decide
  · decide
  · decide
  · decide

/-- C6 amended: results of `listBins` and `listEventsByBin` are ordered by
`created_at` descending (newest first); the order among rows with identical
`created_at` is left unconstrained by the queries, which have no secondary
sort key.  The deterministic model used by the service layer is one
admissible realisation of each query. -/
theorem c6_amended_order_desc :
    (∀ (events : List Event) (bin_id : String) (limit : Nat) (r : List Event),
      listByBinContract events bin_id limit r →
      r.Pairwise (fun a b => b.created_at ≤ a.created_at)) ∧
    (∀ (bins : List Bin) (r : List Bin),
      listAllBinsContract bins r →
      r.Pairwise (fun a b => b.created_at ≤ a.created_at)) ∧
    (∀ (events : List Event) (bin_id : String) (limit : Nat),
      listByBinContract events bin_id limit (EventRepository.list_by_bin events bin_id limit)) ∧
    (∀ bins : List Bin, listAllBinsContract bins (BinRepository.list_all bins)) := by
  refine ⟨?_, ?_, ?_, ?_⟩
  · rintro events bin_id limit r ⟨L, hperm, hpw, rfl⟩
    exact List.Pairwise.sublist (List.take_sublist _ _) hpw
  · rintro bins r ⟨L, hperm, hpw, rfl⟩
    exact hpw
  · intro events bin_id limit
    exact ⟨sortDescBy Event.created_at (events.filter (fun e => decide (e.bin_id = bin_id))),
      sortDescBy_perm _ _, sortDescBy_pairwise _ _, rfl⟩
  · intro bins
    exact ⟨sortDescBy Bin.created_at bins, sortDescBy_perm _ _, sortDescBy_pairwise _ _, rfl⟩

/-- C6 witness: the amended ordering guarantee at a concrete result of the
query contract. -/
theorem c6_witness :
    ([eventTieA] : List Event).Pairwise (fun a b => b.created_at ≤ a.created_at) :=
  c6_amended_order_desc.1 [eventTieA, eventTieB] "b_1" 1 [eventTieA]
    ⟨[eventTieA, eventTieB], by decide, by decide, by decide⟩

/-! ## Controller inversion -/

theorem controller_ok_inv (max : Nat) (store : Store) (bin_id path : String)
    (req : RawRequest) (new_id : String) (now : Nat) (store2 : Store)
    (resp : IngestResponse)
    (hok : IngestController.ingest max store bin_id path req new_id now
      = (store2, .ok resp)) :
    ∃ ev, EventService.ingest_request store bin_id req.method path req.query_params
        (dictHeaders req.raw_headers) req.body (extract_client_ip req) max new_id now
      = (store2, .ok (some ev)) ∧ resp = { ok := true, event_id := ev.id } := by
  have hafter : IngestController.ingestAfterSizeCheck max store bin_id path req new_id now
      = (store2, .ok resp) := by
    rw [IngestController.ingest] at hok
    cases hcle : get_content_length req.raw_headers with
    | none =>
        simp only [hcle] at hok
        exact hok
    | some cl =>
        simp only [hcle] at hok
        by_cases hgt : cl > (max : Int)
        · rw [if_pos hgt] at hok
          have h2 : (Except.error (payload_too_large_error (max : Int) cl)
              : Except HTTPError IngestResponse) = .ok resp := congrArg Prod.snd hok
          exact Except.noConfusion h2
        · rw [if_neg hgt] at hok
          exact hok
  rw [IngestController.ingestAfterSizeCheck] at hafter
  cases hsvc : EventService.ingest_request store bin_id req.method path req.query_params
      (dictHeaders req.raw_headers) req.body (extract_client_ip req) max new_id now with
  | mk store3 r =>
      cases r with
      | error err =>
          simp only [hsvc] at hafter
          have h2 : (Except.error (payload_too_large_error (err.max_size : Int)
              (err.actual_size : Int)) : Except HTTPError IngestResponse) = .ok resp :=
            congrArg Prod.snd hafter
          exact Except.noConfusion h2
      | ok o =>
          cases o with
          | none =>
              simp only [hsvc] at hafter
              have h2 : (Except.error (not_found_error "Bin" bin_id)
                  : Except HTTPError IngestResponse) = .ok resp := congrArg Prod.snd hafter
              exact Except.noConfusion h2
          | some ev =>
              simp only [hsvc] at hafter
              have h2 : store3 = store2 := congrArg Prod.fst hafter
              have h3 : (Except.ok { ok := true, event_id := ev.id }
                  : Except HTTPError IngestResponse) = .ok resp := congrArg Prod.snd hafter
              have h4 : ({ ok := true, event_id := ev.id } : IngestResponse) = resp := by
                injection h3
              refine ⟨ev, ?_, h4.symm⟩
              rw [h2]

theorem lookupKey_append_of_ne (l1 l2 : List (String × String)) (k : String)
    (h : ∀ p ∈ l1, p.1 ≠ k) :
    lookupKey (l1 ++ l2) k = lookupKey l2 k := by
  induction l1 with
  | nil => rfl
  | cons q rest ih =>
      rw [List.cons_append, lookupKey, if_neg (h q (List.mem_cons_self q rest))]
      exact ih (fun p hp => h p (List.mem_cons_of_mem q hp))

/-- C7: a declared Content-Length strictly above the limit is rejected with a
413 payload-too-large carrying the declared size, independently of the body
(which is never read), and the early error has the same shape (status and
code) as the post-read payload-too-large error. -/
theorem c7_declared_length_early_reject (max : Nat) (store : Store)
    (bin_id path : String) (req : RawRequest) (new_id : String) (now : Nat) (cl : Int)
    (hcl : get_content_length req.raw_headers = some cl) (hgt : cl > (max : Int)) :
    IngestController.ingest max store bin_id path req new_id now
      = (store, .error (payload_too_large_error (max : Int) cl)) ∧
    (∀ body2 : List Nat,
      IngestController.ingest max store bin_id path { req with body := body2 } new_id now
        = (store, .error (payload_too_large_error (max : Int) cl))) ∧
    (payload_too_large_error (max : Int) cl).status = 413 ∧
    (payload_too_large_error (max : Int) cl).code = "PAYLOAD_TOO_LARGE" ∧
    (∀ m a m2 a2 : Int,
      (payload_too_large_error m a).status = (payload_too_large_error m2 a2).status ∧
      (payload_too_large_error m a).code = (payload_too_large_error m2 a2).code) := by
  refine ⟨?_, ?_, rfl, rfl, fun m a m2 a2 => ⟨rfl, rfl⟩⟩
  · rw [IngestController.ingest]
    simp only [hcl, if_pos hgt]
  · intro body2
    rw [IngestController.ingest]
    simp only [hcl, if_pos hgt]

/-- C7 witness: a declared Content-Length of 999 against a 10-byte limit is
rejected up front with the declared size. -/
theorem c7_witness :
    IngestController.ingest 10 storeA "b_1" "" reqCL "e_1" 3
      = (storeA, .error (payload_too_large_error 10 999)) :=
  (c7_declared_length_early_reject 10 storeA "b_1" "" reqCL "e_1" 3 999
    (by decide) (by decide)).1

/-- C8: for an event stored by the pipeline from bytes `b`, the detail view
decodes the stored base64 back to `b`: its `size_bytes` is `len(b)`, and its
`body` is the UTF-8 decoding of `b` when that decoding succeeds, otherwise
the original base64 text. -/
theorem c8_detail_decoding (store : Store) (bin_id method path new_id : String)
    (qp hs : List (String × String)) (b : List Nat) (hb : ∀ x ∈ b, x < 256)
    (rip : Option String) (max now : Nat) (store2 : Store) (e : Event)
    (hok : EventService.ingest_request store bin_id method path qp hs b rip max new_id now
      = (store2, .ok (some e)))
    (hfresh : ∀ e0 ∈ store.events, e0.id ≠ new_id) :
    ∃ d, EventDetail.from_event e = some d ∧
      EventService.get_event store2 new_id = some (some d) ∧
      d.size_bytes = b.length ∧
      (∀ s, utf8Decode b = some s → d.body = s) ∧
      (utf8Decode b = none → d.body = b64encode b) := by
  obtain ⟨-, hev, hst⟩ :=
    ingest_request_ok_some_inv store bin_id method path qp hs b rip max now new_id store2 e hok
  have hbody : e.body_b64 = b64encode b := by rw [hev]
  have hid : e.id = new_id := by rw [hev]
  have hd : EventDetail.from_event e
      = some { id := e.id, bin_id := e.bin_id, method := e.method, path := e.path,
               query_params := e.query_params, headers := e.headers,
               body := match utf8Decode b with
                       | some s => s
                       | none => b64encode b,
               remote_ip := e.remote_ip, size_bytes := b.length,
               created_at := e.created_at } := by
    by_cases hnil : b = []
    · subst hnil
      rw [EventDetail.from_event, if_pos (show e.body_b64 = [] by rw [hbody]; rfl)]
      rfl
    · rw [EventDetail.from_event, hbody,
        if_neg (fun h => hnil ((b64encode_eq_nil_iff b).mp h)),
        b64decode_b64encode b hb]
  refine ⟨_, hd, ?_, rfl, ?_, ?_⟩
  · have hfe : (store.events ++ [e]).filter (fun e0 => decide (e0.id = new_id)) = [e] := by
      rw [List.filter_append]
      have h1 : store.events.filter (fun e0 => decide (e0.id = new_id)) = [] :=
        List.filter_eq_nil_iff.mpr (fun a ha => by simp [hfresh a ha])
      rw [h1]
      simp [List.filter_cons, hid]
    rw [hst]
    simp only [EventService.get_event, EventRepository.get_by_id, hfe, List.head?, hd,
      Option.map_some']
  · intro s hs
    simp only [hs]
  · intro hnone
    simp only [hnone]

/-- C8 witness: the two-byte body "hi" is decoded back as UTF-8 text with
`size_bytes = 2`. -/
theorem c8_witness :
    ∃ d, EventDetail.from_event eventHi = some d ∧
      EventService.get_event storeHi "e_1" = some (some d) ∧
      d.size_bytes = ([104, 105] : List Nat).length ∧
      (∀ s, utf8Decode [104, 105] = some s → d.body = s) ∧
      (utf8Decode [104, 105] = none → d.body = b64encode [104, 105]) :=
  c8_detail_decoding storeA "b_1" "POST" "" "e_1" [] [] [104, 105] (by decide)
    none 10 3 storeHi eventHi rfl (by decide)

/-- C9: the headers stored with a captured event have lower-cased keys, one
value per key: a request carrying `X-Test: v` (and no earlier header that
lower-cases to `x-test`) is stored with the key `x-test` mapped to `v`. -/
theorem c9_headers_lowercased (max : Nat) (store : Store) (bin_id path : String)
    (req : RawRequest) (new_id : String) (now : Nat)
    (hs1 hs2 : List (String × String)) (v : String)
    (hraw : req.raw_headers = hs1 ++ ("X-Test", v) :: hs2)
    (hfirst : ∀ p ∈ hs1, strLower p.1 ≠ "x-test")
    (store2 : Store) (resp : IngestResponse)
    (hok : IngestController.ingest max store bin_id path req new_id now
      = (store2, .ok resp)) :
    ∃ e ∈ store2.events, e.id = resp.event_id ∧
      lookupKey e.headers "x-test" = some v ∧
      (e.headers.map Prod.fst).Nodup := by
  obtain ⟨ev, hsvc, hresp⟩ :=
    controller_ok_inv max store bin_id path req new_id now store2 resp hok
  obtain ⟨-, hev, hst⟩ := ingest_request_ok_some_inv store bin_id req.method path
    req.query_params (dictHeaders req.raw_headers) req.body (extract_client_ip req)
    max now new_id store2 ev hsvc
  have hh : ev.headers = dictHeaders req.raw_headers := by rw [hev]
  refine ⟨ev, ?_, ?_, ?_, ?_⟩
  · rw [hst]
    simp
  · rw [hresp]
  · rw [hh, dictHeaders, lookupKey_dictOfPairs, hraw, lowerKeys, List.map_append]
    rw [lookupKey_append_of_ne]
    · simp only [List.map_cons]
      have hx : strLower "X-Test" = "x-test" := by decide
      rw [hx, lookupKey, if_pos rfl]
    · intro p hp
      obtain ⟨q, hq, rfl⟩ := List.mem_map.mp hp
      exact hfirst q hq
  · rw [hh, dictHeaders]
    exact dictOfPairs_keys_nodup _

/-- C9 witness: sending the single header `X-Test: v` stores the key
`x-test` mapped to `v`. -/
theorem c9_witness :
    ∃ e ∈ storeXT.events,
      e.id = ({ ok := true, event_id := "e_1" } : IngestResponse).event_id ∧
      lookupKey e.headers "x-test" = some "v" ∧
      (e.headers.map Prod.fst).Nodup :=
  c9_headers_lowercased 10 storeA "b_1" "" reqXT "e_1" 3 [] [] "v" rfl
    (by simp) storeXT { ok := true, event_id := "e_1" } rfl

theorem ingestAfter_error_code_of_le (max : Nat) (store : Store) (bin_id path : String)
    (req : RawRequest) (new_id : String) (now : Nat)
    (hle : ¬ (req.body.length > max)) :
    ∀ err, (IngestController.ingestAfterSizeCheck max store bin_id path req new_id now).2
      = .error err → err.code = "NOT_FOUND" := by
  intro err herr
  rw [IngestController.ingestAfterSizeCheck] at herr
  cases hsvc : EventService.ingest_request store bin_id req.method path req.query_params
      (dictHeaders req.raw_headers) req.body (extract_client_ip req) max new_id now with
  | mk store3 r =>
      cases r with
      | error e2 =>
          exfalso
          rw [EventService.ingest_request] at hsvc
          simp only [if_neg hle] at hsvc
          cases hbin : BinRepository.get_by_id store.bins bin_id with
          | none =>
              simp only [hbin] at hsvc
              exact Except.noConfusion (congrArg Prod.snd hsvc)
          | some bin =>
              simp only [hbin, EventRepository.create] at hsvc
              exact Except.noConfusion (congrArg Prod.snd hsvc)
      | ok o =>
          cases o with
          | none =>
              simp only [hsvc] at herr
              injection herr with h
              rw [← h]
              rfl
          | some ev =>
              simp only [hsvc] at herr
              exact Except.noConfusion herr

/-- C10: a Content-Length header that does not parse as an integer is treated
as absent — `get_content_length` yields `None`, the early declared-size check
never fires, and the request is judged solely by the measured length of the
body actually read. -/
theorem c10_invalid_content_length_ignored (max : Nat) (store : Store)
    (bin_id path : String) (req : RawRequest) (new_id : String) (now : Nat) (v : String)
    (hv : headersGet req.raw_headers "content-length" = some v)
    (hinv : pythonInt v.data = none) :
    get_content_length req.raw_headers = none ∧
    IngestController.ingest max store bin_id path req new_id now
      = IngestController.ingestAfterSizeCheck max store bin_id path req new_id now ∧
    ((∃ err, (IngestController.ingest max store bin_id path req new_id now).2 = .error err ∧
        err.code = "PAYLOAD_TOO_LARGE") ↔ req.body.length > max) := by
  have hgcl : get_content_length req.raw_headers = none := by
    simp only [get_content_length, hv]
    by_cases hve : v = ""
    · rw [if_pos hve]
    · rw [if_neg hve, hinv]
  have hing : IngestController.ingest max store bin_id path req new_id now
      = IngestController.ingestAfterSizeCheck max store bin_id path req new_id now := by
    rw [IngestController.ingest]
    simp only [hgcl]
  refine ⟨hgcl, hing, ?_, ?_⟩
  · rintro ⟨err, herr, hcode⟩
    by_contra hnot
    rw [hing] at herr
    have hnf := ingestAfter_error_code_of_le max store bin_id path req new_id now hnot err herr
    rw [hnf] at hcode
    exact absurd hcode (by decide)
  · intro hlen
    refine ⟨payload_too_large_error (max : Int) (req.body.length : Int), ?_, rfl⟩
    rw [hing, IngestController.ingestAfterSizeCheck]
    have hsvc : EventService.ingest_request store bin_id req.method path req.query_params
        (dictHeaders req.raw_headers) req.body (extract_client_ip req) max new_id now
        = (store, .error { max_size := max, actual_size := req.body.length }) := by
      rw [EventService.ingest_request]
      simp only [if_pos hlen]
    simp only [hsvc]

/-- C10 witness: `Content-Length: abc` is ignored; the three-byte body is
judged against the 2-byte limit by its measured size. -/
theorem c10_witness : get_content_length reqBadCL.raw_headers = none :=
  (c10_invalid_content_length_ignored 2 storeA "b_1" "" reqBadCL "e_1" 3 "abc"
    (by decide) (by decide)).1

end RequestNest
